import Mathlib

/-!
# Holdings dashboard (`static/script.js`): rendering and auto-refresh

A shallow embedding of the holdings pipeline of `static/script.js`:
`loadHoldings` (fetch, per-row derivation, totals, rendering), and the
auto-refresh poller (`startAutoRefresh`, `showTab`, the `DOMContentLoaded`
handler).

Conventions of the embedding

* JavaScript numbers are modelled by `JSNum` as IEEE 754 binary64 values: a
  finite value held as the exact rational it denotes, `-0`, `Infinity`,
  `-Infinity` or `NaN`.  Every arithmetic operator returns the exact result
  rounded to the nearest double, ties to even, with gradual underflow, overflow
  to an infinity and signed zeros.
* A JSON field of a record is `JSField`: `undefined` (field absent), `null`, or
  a number.
* `Number.prototype.toFixed` follows ECMAScript: fixed-point digits of the
  exact value below `10^21`, the shortest exponent form from `10^21` on.
* The rendered table body is a list of rows, each a record of cells (style
  class and text), in place of the HTML string assembled by the template.
* The elements the script looks up by id (`holdings-body`, the three total
  fields, `last-update-time`, `toast`, the `<name>-tab` panels) exist in the
  page, so `getElementById` never returns `null`.
* `showTab` and the `DOMContentLoaded` handler are modelled by their effect on
  the interval timers; timer handles are fresh positive integers.
-/

namespace TradingBot

/-! ## JavaScript numbers (IEEE 754 binary64) -/

/-- A JavaScript number: a finite value (`fin 0` is `+0`), `-0`, the two
infinities, or NaN.  The results of the arithmetic operators are always
doubles: each is the exact result rounded to nearest, ties to even. -/
inductive JSNum where
  | fin (q : ℚ)
  | negZero
  | pinf
  | ninf
  | nan
  deriving DecidableEq, Repr

namespace JSNum

/-- The power `2^k` as a rational. -/
def pow2 : ℤ → ℚ
  | Int.ofNat n => ((2 ^ n : ℕ) : ℚ)
  | Int.negSucc n => 1 / ((2 ^ (n + 1) : ℕ) : ℚ)

/-- Binary logarithm of a natural number, rounded down, by repeated halving. -/
def log2Fuel : Nat → Nat → Nat
  | 0, _ => 0
  | fuel + 1, n => if n < 2 then 0 else log2Fuel fuel (n / 2) + 1

/-- Binary logarithm of `n ≥ 1`, rounded down. -/
def natLog2 (n : Nat) : Nat := log2Fuel n n

/-- For `x > 0`, the exponent `e` with `2^e ≤ x < 2^(e+1)`. -/
def floorLog2 (x : ℚ) : ℤ :=
  let e0 : ℤ := (natLog2 x.num.natAbs : ℤ) - (natLog2 x.den : ℤ)
  if pow2 e0 ≤ x then e0 else e0 - 1

/-- Nearest integer, ties to the even one. -/
def roundHalfEven (t : ℚ) : ℤ :=
  if t - ⌊t⌋ < 1 / 2 then ⌊t⌋
  else if 1 / 2 < t - ⌊t⌋ then ⌊t⌋ + 1
  else if ⌊t⌋ % 2 = 0 then ⌊t⌋ else ⌊t⌋ + 1

/-- Exponent of the unit in the last place of the binade of `x > 0`: 53
significant bits, smallest normal exponent `-1022` (below it the spacing of
the subnormal numbers, `2^-1074`). -/
def ulpExponent (x : ℚ) : ℤ := max (floorLog2 x) (-1022) - 52

/-- Nearest multiple of the unit in the last place, for `x > 0`. -/
def gridRoundPos (x : ℚ) : ℚ :=
  (roundHalfEven (x / pow2 (ulpExponent x)) : ℚ) * pow2 (ulpExponent x)

/-- Round to nearest, ties to even, with unbounded exponent range upward. -/
def gridRound (x : ℚ) : ℚ :=
  if 0 < x then gridRoundPos x else if x < 0 then -gridRoundPos (-x) else 0

/-- The double nearest to the exact result `x`; magnitudes that round to
`2^1024` or more overflow to an infinity, and a zero result takes the sign
`zeroNeg`. -/
def ofExact (zeroNeg : Bool) (x : ℚ) : JSNum :=
  if pow2 1024 ≤ gridRound x then pinf
  else if gridRound x ≤ -pow2 1024 then ninf
  else if gridRound x = 0 then (if zeroNeg then negZero else fin 0)
  else fin (gridRound x)

/-- The number denoted by a decimal literal of exact value `x`, as produced by
JSON decoding. -/
def lit (x : ℚ) : JSNum := ofExact (decide (x < 0)) x

/-- The value of a finite number; `none` for the infinities and NaN. -/
def finiteValue : JSNum → Option ℚ
  | fin q => some q
  | negZero => some 0
  | _ => none

/-- The sign bit. -/
def signBit : JSNum → Bool
  | fin q => decide (q < 0)
  | negZero => true
  | pinf => false
  | ninf => true
  | nan => false

/-- Infinity of the given sign. -/
def infinity (negative : Bool) : JSNum := if negative then ninf else pinf

/-- Zero of the given sign. -/
def zero (negative : Bool) : JSNum := if negative then negZero else fin 0

/-- Unary minus. -/
def neg : JSNum → JSNum
  | fin q => if q = 0 then negZero else fin (-q)
  | negZero => fin 0
  | pinf => ninf
  | ninf => pinf
  | nan => nan

/-- The operator `+` on numbers. -/
def add (a b : JSNum) : JSNum :=
  if a = nan ∨ b = nan then nan
  else
    match a.finiteValue, b.finiteValue with
    | some x, some y =>
      if x + y = 0 then zero (a.signBit && b.signBit)
      else ofExact (decide (x + y < 0)) (x + y)
    | none, some _ => a
    | some _, none => b
    | none, none => if a = b then a else nan

/-- The operator `-` on numbers. -/
def sub (a b : JSNum) : JSNum := add a (neg b)

/-- The operator `*` on numbers. -/
def mul (a b : JSNum) : JSNum :=
  if a = nan ∨ b = nan then nan
  else
    match a.finiteValue, b.finiteValue with
    | some x, some y => ofExact (xor a.signBit b.signBit) (x * y)
    | some x, none => if x = 0 then nan else infinity (xor a.signBit b.signBit)
    | none, some y => if y = 0 then nan else infinity (xor a.signBit b.signBit)
    | none, none => infinity (xor a.signBit b.signBit)

/-- The operator `/` on numbers; a finite non-zero value divided by a zero is
an infinity, `0 / 0` is NaN. -/
def div (a b : JSNum) : JSNum :=
  if a = nan ∨ b = nan then nan
  else
    match a.finiteValue, b.finiteValue with
    | some x, some y =>
      if y = 0 then (if x = 0 then nan else infinity (xor a.signBit b.signBit))
      else ofExact (xor a.signBit b.signBit) (x / y)
    | some _, none => zero (xor a.signBit b.signBit)
    | none, some _ => infinity (xor a.signBit b.signBit)
    | none, none => nan

/-- The function `Math.abs`. -/
def abs : JSNum → JSNum
  | fin q => fin |q|
  | negZero => fin 0
  | pinf => pinf
  | ninf => pinf
  | nan => nan

/-- The comparison `x >= 0` (false for NaN). -/
def geZero : JSNum → Bool
  | fin q => decide (0 ≤ q)
  | negZero => true
  | pinf => true
  | ninf => false
  | nan => false

/-- The comparison `x > 0` (false for NaN). -/
def gtZero : JSNum → Bool
  | fin q => decide (0 < q)
  | negZero => false
  | pinf => true
  | ninf => false
  | nan => false

/-- The comparison `x < 0` (false for NaN). -/
def ltZero : JSNum → Bool
  | fin q => decide (q < 0)
  | negZero => false
  | pinf => false
  | ninf => true
  | nan => false

/-- Truthiness of a number: everything except `0`, `-0` and NaN. -/
def truthy : JSNum → Bool
  | fin q => decide (q ≠ 0)
  | negZero => false
  | pinf => true
  | ninf => true
  | nan => false

/-- Decimal digits of `n`, left-padded with `0` to at least `w` characters. -/
def padDigits (w n : Nat) : String :=
  let ds := Nat.toDigits 10 n
  String.mk (List.replicate (w - ds.length) '0' ++ ds)

/-- Fixed-point text of a non-negative rational with `f` decimals: the integer
`n` closest to `q * 10^f` (the larger one on a tie), written with a decimal
point before its last `f` digits. -/
def fixedNonneg (q : ℚ) (f : Nat) : String :=
  let n : Nat := (Rat.floor (q * (10 : ℚ) ^ f + 1 / 2)).toNat
  if f = 0 then padDigits 1 n
  else padDigits 1 (n / 10 ^ f) ++ "." ++ padDigits f (n % 10 ^ f)

/-- Candidate digit string of length `k` for `q ≥ 10^21` with `n0` integer
digits: an integer `s` such that `s * 10^(n0-k)` denotes the double `q`, the
one closest to `q` when both neighbours do; returned with the decimal exponent
`n` of `Number::toString`. -/
def shortestAt (q : ℚ) (n0 k : Nat) : Option (Nat × Nat) :=
  let scale : ℚ := (10 : ℚ) ^ (n0 - k)
  let lo : Nat := ⌊q / scale⌋.toNat
  let okLo : Bool := decide (ofExact false (lo * scale) = fin q)
  let okHi : Bool := decide (ofExact false ((lo + 1) * scale) = fin q)
  let pick : Option Nat :=
    if okLo && okHi then
      (if q - lo * scale < (lo + 1) * scale - q then some lo
       else if (lo + 1) * scale - q < q - lo * scale then some (lo + 1)
       else if lo % 2 = 0 then some lo else some (lo + 1))
    else if okLo then some lo
    else if okHi then some (lo + 1)
    else none
  pick.map (fun s => if s = 10 ^ k then (10 ^ (k - 1), n0 + 1) else (s, n0))

/-- Shortest digit string that denotes the double `q`, trying lengths `k`,
`k+1`, ...; seventeen digits always identify a double. -/
def shortestDigits (q : ℚ) (n0 : Nat) : Nat → Nat → Nat × Nat
  | 0, k => (⌊q / (10 : ℚ) ^ (n0 - k)⌋.toNat, n0)
  | fuel + 1, k =>
    match shortestAt q n0 k with
    | some r => r
    | none => shortestDigits q n0 fuel (k + 1)

/-- The text of `Number::toString` for a finite `q ≥ 10^21`: exponent form
`d.ddde+N` with the shortest digit string. -/
def exponentString (q : ℚ) : String :=
  let n0 := (Nat.toDigits 10 ⌊q⌋.toNat).length
  let (s, n) := shortestDigits q n0 17 1
  match Nat.toDigits 10 s with
  | [] => ""
  | [d] => String.mk [d] ++ "e+" ++ String.mk (Nat.toDigits 10 (n - 1))
  | d :: ds => String.mk (d :: '.' :: ds) ++ "e+" ++ String.mk (Nat.toDigits 10 (n - 1))

/-- Text of a non-negative finite magnitude in `toFixed`: exponent form from
`10^21` on, fixed-point below. -/
def fixedMagnitude (q : ℚ) (f : Nat) : String :=
  if (10 : ℚ) ^ 21 ≤ q then exponentString q else fixedNonneg q f

/-- The method `Number.prototype.toFixed(f)`. -/
def toFixed (x : JSNum) (f : Nat) : String :=
  match x with
  | nan => "NaN"
  | pinf => "Infinity"
  | ninf => "-Infinity"
  | negZero => fixedNonneg 0 f
  | fin q => if q < 0 then "-" ++ fixedMagnitude (-q) f else fixedMagnitude q f

end JSNum

/-! ## Holding records as received from `GET /api/holdings` -/

/-- A numeric field of a JSON record: absent (`undefined`), `null`, or a number. -/
inductive JSField where
  | undefined
  | null
  | num (n : JSNum)
  deriving DecidableEq, Repr

namespace JSField

/-- The test `f !== null && f !== undefined`. -/
def isKnown : JSField → Bool
  | undefined => false
  | null => false
  | num _ => true

/-- Numeric coercion applied by the arithmetic operators: `undefined` is NaN,
`null` is `0`. -/
def toNumber : JSField → JSNum
  | undefined => JSNum.nan
  | null => JSNum.fin 0
  | num n => n

/-- The function `parseFloat` on a field, which reads back the text of its
argument: NaN for `undefined` and `null`, `0` for `-0`, the number itself
otherwise. -/
def parseFloat : JSField → JSNum
  | undefined => JSNum.nan
  | null => JSNum.nan
  | num JSNum.negZero => JSNum.fin 0
  | num n => n

/-- The expression `f || d` for a field `f` and a numeric default `d`: the
field when it is truthy (a number other than `0` and NaN), else the default. -/
def orElse (f : JSField) (d : JSNum) : JSNum :=
  match f with
  | num n => if n.truthy then n else d
  | _ => d

end JSField

/-- One element `h` of the holdings array.  The field `symbol` is the text that
the template substitutes for `h.symbol`. -/
structure HoldingRecord where
  symbol : String
  shares : JSField
  avg_cost : JSField
  current_price : JSField := JSField.undefined
  current_value : JSField := JSField.undefined
  pnl : JSField := JSField.undefined
  pnl_percent : JSField := JSField.undefined
  deriving DecidableEq, Repr

/-! ## Rendering of one row (the callback of `holdings.map`) -/

/-- A table cell with a `class` attribute and its text. -/
structure Cell where
  cls : String
  text : String
  deriving DecidableEq, Repr

/-- One `<tr>` of the holdings table. -/
structure Row where
  symbol : String
  shares : String
  avgCost : String
  currentPrice : String
  currentValue : String
  pnl : Cell
  pnlPercent : Cell
  deleteSymbol : String
  deriving DecidableEq, Repr

namespace HoldingRecord

/-- The local `costBasis = h.shares * h.avg_cost`. -/
def costBasis (h : HoldingRecord) : JSNum :=
  JSNum.mul h.shares.toNumber h.avg_cost.toNumber

/-- The local `currentValue = h.current_value || (h.shares * h.current_price)`. -/
def currentValue (h : HoldingRecord) : JSNum :=
  h.current_value.orElse (JSNum.mul h.shares.toNumber h.current_price.toNumber)

/-- The local `pnl = h.pnl || (currentValue - costBasis)`. -/
def pnlValue (h : HoldingRecord) : JSNum :=
  h.pnl.orElse (JSNum.sub h.currentValue h.costBasis)

/-- The local
`pnlPercent = h.pnl_percent || ((h.current_price - h.avg_cost) / h.avg_cost * 100)`. -/
def pnlPercentValue (h : HoldingRecord) : JSNum :=
  h.pnl_percent.orElse
    (JSNum.mul
      (JSNum.div (JSNum.sub h.current_price.toNumber h.avg_cost.toNumber) h.avg_cost.toNumber)
      (JSNum.fin 100))

/-- The local `pnlClass = pnl >= 0 ? 'positive' : 'negative'`. -/
def pnlClass (h : HoldingRecord) : String :=
  if h.pnlValue.geZero then "positive" else "negative"

/-- The local `pnlSign = pnl >= 0 ? '+' : ''`. -/
def pnlSign (h : HoldingRecord) : String :=
  if h.pnlValue.geZero then "+" else ""

/-- The row built by the first template (price known). -/
def pricedRow (h : HoldingRecord) : Row :=
  { symbol := h.symbol
    shares := JSNum.toFixed h.shares.parseFloat 3
    avgCost := "$" ++ JSNum.toFixed h.avg_cost.parseFloat 2
    currentPrice := "$" ++ JSNum.toFixed h.current_price.parseFloat 2
    currentValue := "$" ++ JSNum.toFixed h.currentValue 2
    pnl := { cls := "pnl " ++ h.pnlClass
             text := h.pnlSign ++ "$" ++ JSNum.toFixed (JSNum.abs h.pnlValue) 2 }
    pnlPercent := { cls := "pnl-percent " ++ h.pnlClass
                    text := h.pnlSign ++ JSNum.toFixed (JSNum.abs h.pnlPercentValue) 2 ++ "%" }
    deleteSymbol := h.symbol }

/-- The row built by the second template (price `null` or `undefined`). -/
def unpricedRow (h : HoldingRecord) : Row :=
  { symbol := h.symbol
    shares := JSNum.toFixed h.shares.parseFloat 3
    avgCost := "$" ++ JSNum.toFixed h.avg_cost.parseFloat 2
    currentPrice := "N/A"
    currentValue := "-"
    pnl := { cls := "pnl", text := "-" }
    pnlPercent := { cls := "pnl-percent", text := "-" }
    deleteSymbol := h.symbol }

end HoldingRecord

/-- The two accumulators `totalCostBasis` and `totalCurrentValue`. -/
structure Totals where
  totalCostBasis : JSNum
  totalCurrentValue : JSNum
  deriving DecidableEq, Repr

/-- One call of the `holdings.map` callback: updates the accumulators and
returns the row. -/
def renderHolding (t : Totals) (h : HoldingRecord) : Totals × Row :=
  let t1 : Totals := { t with totalCostBasis := JSNum.add t.totalCostBasis h.costBasis }
  if h.current_price.isKnown then
    ({ t1 with totalCurrentValue := JSNum.add t1.totalCurrentValue h.currentValue },
      h.pricedRow)
  else
    (t1, h.unpricedRow)

/-- The whole `holdings.map(...)` over records, left to right, threading the
accumulators. -/
def renderHoldings : Totals → List HoldingRecord → Totals × List Row
  | t, [] => (t, [])
  | t, h :: hs =>
    let (t1, r) := renderHolding t h
    let (t2, rs) := renderHoldings t1 hs
    (t2, r :: rs)

/-- Initial accumulators: `let totalCostBasis = 0; let totalCurrentValue = 0`. -/
def Totals.zero : Totals :=
  { totalCostBasis := JSNum.fin 0, totalCurrentValue := JSNum.fin 0 }

/-- The three summary fields written after the table body. -/
structure Summary where
  totalCurrentValue : Cell
  totalPnl : Cell
  totalPnlPct : Cell
  deriving DecidableEq, Repr

/-- The local `totalPnl = totalCurrentValue - totalCostBasis`. -/
def Totals.totalPnl (t : Totals) : JSNum :=
  JSNum.sub t.totalCurrentValue t.totalCostBasis

/-- The local
`totalPnlPercent = totalCostBasis > 0 ? (totalPnl / totalCostBasis * 100) : 0`. -/
def Totals.totalPnlPercent (t : Totals) : JSNum :=
  if t.totalCostBasis.gtZero then
    JSNum.mul (JSNum.div t.totalPnl t.totalCostBasis) (JSNum.fin 100)
  else JSNum.fin 0

/-- The local `totalPnlClass`. -/
def Totals.totalPnlClass (t : Totals) : String :=
  if t.totalPnl.geZero then "positive" else "negative"

/-- The local `totalPnlSign`. -/
def Totals.totalPnlSign (t : Totals) : String :=
  if t.totalPnl.geZero then "+" else ""

/-- The `<strong>` elements written into `total-current-value`, `total-pnl` and
`total-pnl-pct`. -/
def Totals.summary (t : Totals) : Summary :=
  { totalCurrentValue := { cls := "", text := "$" ++ JSNum.toFixed t.totalCurrentValue 2 }
    totalPnl := { cls := t.totalPnlClass
                  text := t.totalPnlSign ++ "$" ++ JSNum.toFixed (JSNum.abs t.totalPnl) 2 }
    totalPnlPct := { cls := t.totalPnlClass
                     text := t.totalPnlSign ++ JSNum.toFixed (JSNum.abs t.totalPnlPercent) 2 ++ "%" } }

/-! ## The page state touched by `loadHoldings` -/

/-- A notification shown by `showToast(message, isError)`. -/
structure Toast where
  message : String
  isError : Bool
  deriving DecidableEq, Repr

/-- The parts of the document that `loadHoldings` reads or writes: the table
body, the three summary fields, the last-update stamp, and the notifications
shown so far (oldest first). -/
structure Dom where
  holdingsBody : List Row
  summary : Summary
  lastUpdateTime : String
  toasts : List Toast
  deriving DecidableEq, Repr

/-- The function `showToast`. -/
def showToast (message : String) (isError : Bool) (d : Dom) : Dom :=
  { d with toasts := d.toasts ++ [{ message := message, isError := isError }] }

/-- One element of a decoded JSON array, as seen by the `map` callback. -/
inductive Item where
  /-- JSON `null`: reading `h.shares` throws a `TypeError`. -/
  | null
  /-- A number, string or boolean: every property read yields `undefined`. -/
  | prim
  /-- An object, with its fields. -/
  | record (h : HoldingRecord)
  deriving DecidableEq, Repr

/-- The property reads of the callback on one element. -/
def Item.props : Item → Except String HoldingRecord
  | Item.null => Except.error "Cannot read properties of null (reading 'shares')"
  | Item.prim =>
    Except.ok { symbol := "undefined", shares := JSField.undefined, avg_cost := JSField.undefined }
  | Item.record h => Except.ok h

/-- The value produced by `response.json()`. -/
inductive Decoded where
  /-- Any JSON value that is not an array (object, string, number, boolean,
  `null`): it has no callable `map`. -/
  | nonArray
  | array (items : List Item)
  deriving DecidableEq, Repr

/-- Outcome of `fetch('/api/holdings')` followed by `response.json()`. -/
inductive Response where
  /-- The promise of `fetch` rejects with an error carrying this message. -/
  | fetchRejected (message : String)
  /-- The promise of `response.json()` rejects with this message. -/
  | jsonRejected (message : String)
  | decoded (value : Decoded)
  deriving DecidableEq, Repr

/-- The call `holdings.map(callback)` on array elements: stops at the first
element on which the callback throws. -/
def mapItems : Totals → List Item → Except String (Totals × List Row)
  | t, [] => Except.ok (t, [])
  | t, it :: its =>
    match it.props with
    | Except.error e => Except.error e
    | Except.ok h =>
      let (t1, r) := renderHolding t h
      match mapItems t1 its with
      | Except.error e => Except.error e
      | Except.ok (t2, rs) => Except.ok (t2, r :: rs)

/-- The body of the `try` block of `loadHoldings`.  Every statement that can
throw (the two awaits and `holdings.map`) runs before the first write to the
document, so a thrown error carries no partial update.  The argument `now` is
the text of `new Date().toLocaleTimeString()`. -/
def loadHoldingsTry (resp : Response) (now : String) (d : Dom) : Except String Dom :=
  match resp with
  | Response.fetchRejected m => Except.error m
  | Response.jsonRejected m => Except.error m
  | Response.decoded Decoded.nonArray => Except.error "holdings.map is not a function"
  | Response.decoded (Decoded.array items) =>
    match mapItems Totals.zero items with
    | Except.error e => Except.error e
    | Except.ok (t, rows) =>
      Except.ok { d with holdingsBody := rows, summary := t.summary, lastUpdateTime := now }

/-- The function `loadHoldings`: the `try` block, and the `catch` clause that
turns any thrown error into one error notification. -/
def loadHoldings (resp : Response) (now : String) (d : Dom) : Except String Dom :=
  match loadHoldingsTry resp now d with
  | Except.ok d1 => Except.ok d1
  | Except.error m => Except.ok (showToast ("❌ Error loading holdings: " ++ m) true d)

/-! ## The auto-refresh poller -/

/-- The timer state of the page: the global `refreshInterval` (`none` while
still `undefined`), the handles of the interval timers currently scheduled,
the next handle `setInterval` will return, and the number of `loadHoldings`
calls made so far. -/
structure Page where
  refreshInterval : Option Nat
  timers : List Nat
  nextHandle : Nat
  loads : Nat
  deriving DecidableEq, Repr

/-- The page before any script has run; timer handles start at `1`. -/
def Page.initial : Page :=
  { refreshInterval := none, timers := [], nextHandle := 1, loads := 0 }

/-- The function `startAutoRefresh`: one immediate `loadHoldings()`, then
`refreshInterval = setInterval(loadHoldings, 30000)`. -/
def startAutoRefresh (p : Page) : Page :=
  { refreshInterval := some p.nextHandle
    timers := p.nextHandle :: p.timers
    nextHandle := p.nextHandle + 1
    loads := p.loads + 1 }

/-- The call `clearInterval(handle)`. -/
def clearInterval (handle : Nat) (p : Page) : Page :=
  { p with timers := p.timers.filter (fun t => t != handle) }

/-- The timer part of `showTab(tabName)`. -/
def showTab (tabName : String) (p : Page) : Page :=
  if tabName = "holdings" then startAutoRefresh p
  else
    match p.refreshInterval with
    | some handle => if handle ≠ 0 then clearInterval handle p else p
    | none => p

/-- The timer part of the `DOMContentLoaded` handler; `holdingsActive` tells
whether `holdings-tab` exists and carries the class `active`. -/
def domContentLoaded (holdingsActive : Bool) (p : Page) : Page :=
  if holdingsActive then startAutoRefresh p else p

/-- Thirty seconds pass: every scheduled interval timer calls `loadHoldings`
once. -/
def elapseInterval (p : Page) : Page :=
  { p with loads := p.loads + p.timers.length }

/-- A page load followed by the given `showTab` calls, in order. -/
def runTabs (holdingsActive : Bool) (tabs : List String) : Page :=
  tabs.foldl (fun p tab => showTab tab p) (domContentLoaded holdingsActive Page.initial)

/-! ## Example inputs -/

/-- The empty document used in examples. -/
def Dom.empty : Dom :=
  { holdingsBody := []
    summary := { totalCurrentValue := { cls := "", text := "" }
                 totalPnl := { cls := "", text := "" }
                 totalPnlPct := { cls := "", text := "" } }
    lastUpdateTime := ""
    toasts := [] }

/-- A holding with cost basis `100` and current value `120`. -/
def gainExample : HoldingRecord :=
  { symbol := "AAA", shares := JSField.num (JSNum.fin 1), avg_cost := JSField.num (JSNum.fin 100)
    current_price := JSField.num (JSNum.fin 120) }

/-- A holding with cost basis `50` whose price is not known yet. -/
def unpricedExample : HoldingRecord :=
  { symbol := "BBB", shares := JSField.num (JSNum.fin 1), avg_cost := JSField.num (JSNum.fin 50)
    current_price := JSField.null }

/-- A holding bought at `100` and now priced at `87.5`: P&L is `-12.5`. -/
def lossExample : HoldingRecord :=
  { symbol := "CCC", shares := JSField.num (JSNum.fin 1), avg_cost := JSField.num (JSNum.fin 100)
    current_price := JSField.num (JSNum.fin (175 / 2)) }

/-- Two shares priced at `5` for which the service reports `current_value: 0`. -/
def zeroValueExample : HoldingRecord :=
  { symbol := "DDD", shares := JSField.num (JSNum.fin 2), avg_cost := JSField.num (JSNum.fin 1)
    current_price := JSField.num (JSNum.fin 5), current_value := JSField.num (JSNum.fin 0) }

/-- A holding with cost basis `100` and current value `95` for which the
service reports `pnl: 0`. -/
def zeroPnlExample : HoldingRecord :=
  { symbol := "EEE", shares := JSField.num (JSNum.fin 1), avg_cost := JSField.num (JSNum.fin 100)
    current_price := JSField.num (JSNum.fin 95), pnl := JSField.num (JSNum.fin 0) }

/-- A holding with `avg_cost: 0` and price `5`. -/
def zeroCostExample : HoldingRecord :=
  { symbol := "FFF", shares := JSField.num (JSNum.fin 2), avg_cost := JSField.num (JSNum.fin 0)
    current_price := JSField.num (JSNum.fin 5) }

/-- A decoded value is a list of records when it is an array all of whose
elements are objects. -/
def Decoded.isRecordList : Decoded → Bool
  | Decoded.nonArray => false
  | Decoded.array items =>
    items.all (fun it => match it with
      | Item.record _ => true
      | _ => false)

/-- A holding of `1e308` shares bought at `10` and priced at `20`: both
products overflow to `Infinity`. -/
def overflowExample : HoldingRecord :=
  { symbol := "GGG", shares := JSField.num (JSNum.lit (10 ^ 308))
    avg_cost := JSField.num (JSNum.fin 10), current_price := JSField.num (JSNum.fin 20) }

/-- Three shares bought at `12.34` and priced at `12.339999999999998` (the two
fields hold the doubles these literals denote). -/
def roundingExample : HoldingRecord :=
  { symbol := "HHH", shares := JSField.num (JSNum.fin 3)
    avg_cost := JSField.num (JSNum.fin (3473401212609495 / 281474976710656))
    current_price := JSField.num (JSNum.fin (6946802425218989 / 562949953421312)) }

/-- A holding of `2.5` shares bought at `50.125` with no price field. -/
def fractionalUnpricedExample : HoldingRecord :=
  { symbol := "KKK", shares := JSField.num (JSNum.fin (5 / 2))
    avg_cost := JSField.num (JSNum.fin (401 / 8)) }

/-- The number `X` is the double (or infinity) obtained from a result whose
rounding with unbounded exponent is `r`. -/
def JSNum.Rounds (X : JSNum) (r : ℚ) : Prop :=
  (X = JSNum.pinf ∧ JSNum.pow2 1024 ≤ r) ∨ (X = JSNum.ninf ∧ r ≤ -JSNum.pow2 1024) ∨
    (X.finiteValue = some r ∧ -JSNum.pow2 1024 < r ∧ r < JSNum.pow2 1024)

/-! ## Auxiliary lemmas -/

namespace JSNum

theorem pow2_eq (k : ℤ) : pow2 k = (2 : ℚ) ^ k := by
  cases k with
  | ofNat n => simp [pow2]
  | negSucc n => simp [pow2, zpow_negSucc]

theorem pow2_pos (k : ℤ) : 0 < pow2 k := by
  rw [pow2_eq]; positivity

theorem pow2_le {a b : ℤ} (h : a ≤ b) : pow2 a ≤ pow2 b := by
  rw [pow2_eq, pow2_eq]; exact zpow_le_zpow_right₀ (by norm_num) h

theorem pow2_add (a b : ℤ) : pow2 (a + b) = pow2 a * pow2 b := by
  rw [pow2_eq, pow2_eq, pow2_eq]; exact zpow_add₀ (by norm_num) a b

theorem log2Fuel_bracket (fuel n : Nat) (hf : n ≤ fuel) (hn : 1 ≤ n) :
    2 ^ log2Fuel fuel n ≤ n ∧ n < 2 ^ (log2Fuel fuel n + 1) := by
  induction fuel generalizing n with
  | zero => omega
  | succ fuel ih =>
    unfold log2Fuel
    by_cases h2 : n < 2
    · simp only [h2, if_true]
      constructor <;> simp <;> omega
    · simp only [h2, if_false]
      have hdiv : n / 2 ≤ fuel := by omega
      have hdiv1 : 1 ≤ n / 2 := by omega
      obtain ⟨h1, h3⟩ := ih (n / 2) hdiv hdiv1
      constructor
      · rw [pow_succ]; omega
      · rw [pow_succ]; omega

theorem natLog2_bracket (n : Nat) (hn : 1 ≤ n) :
    2 ^ natLog2 n ≤ n ∧ n < 2 ^ (natLog2 n + 1) :=
  log2Fuel_bracket n n (le_refl n) hn

theorem floorLog2_bracket (x : ℚ) (hx : 0 < x) :
    pow2 (floorLog2 x) ≤ x ∧ x < pow2 (floorLog2 x + 1) := by
  have hnum : 0 < x.num := Rat.num_pos.mpr hx
  have hn1 : 1 ≤ x.num.natAbs := by omega
  have hd1 : 1 ≤ x.den := x.den_pos
  obtain ⟨hnl, hnu⟩ := natLog2_bracket _ hn1
  obtain ⟨hdl, hdu⟩ := natLog2_bracket _ hd1
  have hxeq : x = (x.num.natAbs : ℚ) / (x.den : ℚ) := by
    have h2 : (x.num.natAbs : ℚ) = (x.num : ℚ) := by
      rw [← Int.cast_natCast, Int.natAbs_of_nonneg hnum.le]
    rw [h2]; exact (Rat.num_div_den x).symm
  set n := x.num.natAbs with hn
  set d := x.den with hd
  have hdpos : (0 : ℚ) < d := by exact_mod_cast hd1
  have hnlq : ((2 : ℚ) ^ natLog2 n) ≤ n := by exact_mod_cast hnl
  have hnuq : (n : ℚ) < (2 : ℚ) ^ (natLog2 n + 1) := by exact_mod_cast hnu
  have hdlq : ((2 : ℚ) ^ natLog2 d) ≤ d := by exact_mod_cast hdl
  have hduq : (d : ℚ) < (2 : ℚ) ^ (natLog2 d + 1) := by exact_mod_cast hdu
  have hlow : pow2 ((natLog2 n : ℤ) - (natLog2 d : ℤ) - 1) ≤ x := by
    rw [pow2_eq, hxeq, le_div_iff₀ hdpos]
    have : (2 : ℚ) ^ ((natLog2 n : ℤ) - (natLog2 d : ℤ) - 1) * (2 : ℚ) ^ (natLog2 d + 1)
        = (2 : ℚ) ^ natLog2 n := by
      rw [← zpow_natCast (2 : ℚ) (natLog2 d + 1), ← zpow_add₀ (by norm_num : (2 : ℚ) ≠ 0),
        ← zpow_natCast (2 : ℚ) (natLog2 n)]
      congr 1
      push_cast
      ring
    calc (2 : ℚ) ^ ((natLog2 n : ℤ) - (natLog2 d : ℤ) - 1) * (d : ℚ)
        ≤ (2 : ℚ) ^ ((natLog2 n : ℤ) - (natLog2 d : ℤ) - 1) * (2 : ℚ) ^ (natLog2 d + 1) := by
          apply mul_le_mul_of_nonneg_left hduq.le
          positivity
      _ = (2 : ℚ) ^ natLog2 n := this
      _ ≤ n := hnlq
  have hhigh : x < pow2 ((natLog2 n : ℤ) - (natLog2 d : ℤ) + 1) := by
    rw [pow2_eq, hxeq, div_lt_iff₀ hdpos]
    have : (2 : ℚ) ^ ((natLog2 n : ℤ) - (natLog2 d : ℤ) + 1) * (2 : ℚ) ^ (natLog2 d)
        = (2 : ℚ) ^ (natLog2 n + 1) := by
      rw [← zpow_natCast (2 : ℚ) (natLog2 d), ← zpow_add₀ (by norm_num : (2 : ℚ) ≠ 0),
        ← zpow_natCast (2 : ℚ) (natLog2 n + 1)]
      congr 1
      push_cast
      ring
    calc (n : ℚ) < (2 : ℚ) ^ (natLog2 n + 1) := hnuq
      _ = (2 : ℚ) ^ ((natLog2 n : ℤ) - (natLog2 d : ℤ) + 1) * (2 : ℚ) ^ (natLog2 d) := this.symm
      _ ≤ (2 : ℚ) ^ ((natLog2 n : ℤ) - (natLog2 d : ℤ) + 1) * (d : ℚ) := by
          apply mul_le_mul_of_nonneg_left hdlq
          positivity
  unfold floorLog2
  simp only
  by_cases hc : pow2 ((natLog2 n : ℤ) - (natLog2 d : ℤ)) ≤ x
  · rw [if_pos hc]
    exact ⟨hc, hhigh⟩
  · rw [if_neg hc]
    refine ⟨hlow, ?_⟩
    have : (natLog2 n : ℤ) - (natLog2 d : ℤ) - 1 + 1 = (natLog2 n : ℤ) - (natLog2 d : ℤ) := by ring
    rw [this]
    exact not_le.mp hc

theorem floorLog2_mono {x y : ℚ} (hx : 0 < x) (hxy : x ≤ y) : floorLog2 x ≤ floorLog2 y := by
  obtain ⟨h1, _⟩ := floorLog2_bracket x hx
  obtain ⟨_, h2⟩ := floorLog2_bracket y (lt_of_lt_of_le hx hxy)
  have h3 : pow2 (floorLog2 x) < pow2 (floorLog2 y + 1) := lt_of_le_of_lt (le_trans h1 hxy) h2
  rw [pow2_eq, pow2_eq, zpow_lt_zpow_iff_right₀ (by norm_num)] at h3
  omega

theorem roundHalfEven_ge_floor (t : ℚ) : ⌊t⌋ ≤ roundHalfEven t := by
  unfold roundHalfEven
  split_ifs <;> omega

theorem roundHalfEven_le_floor_add_one (t : ℚ) : roundHalfEven t ≤ ⌊t⌋ + 1 := by
  unfold roundHalfEven
  split_ifs <;> omega

theorem roundHalfEven_intCast (m : ℤ) : roundHalfEven (m : ℚ) = m := by
  unfold roundHalfEven
  simp

theorem roundHalfEven_mono {t u : ℚ} (h : t ≤ u) : roundHalfEven t ≤ roundHalfEven u := by
  have hfl : ⌊t⌋ ≤ ⌊u⌋ := Int.floor_mono h
  rcases lt_or_eq_of_le hfl with hlt | heq
  · have h1 := roundHalfEven_le_floor_add_one t
    have h2 := roundHalfEven_ge_floor u
    omega
  · unfold roundHalfEven
    rw [← heq]
    have hr : t - ⌊t⌋ ≤ u - ⌊t⌋ := by linarith
    split_ifs <;> first | omega | (exfalso; linarith)

theorem roundHalfEven_nonneg {t : ℚ} (h : 0 ≤ t) : 0 ≤ roundHalfEven t :=
  le_trans (Int.floor_nonneg.mpr h) (roundHalfEven_ge_floor t)

theorem gridRoundPos_nonneg {x : ℚ} (hx : 0 < x) : 0 ≤ gridRoundPos x := by
  unfold gridRoundPos
  have hp := pow2_pos (ulpExponent x)
  have ht : 0 ≤ x / pow2 (ulpExponent x) := by positivity
  have hr : (0 : ℚ) ≤ (roundHalfEven (x / pow2 (ulpExponent x)) : ℚ) := by
    exact_mod_cast roundHalfEven_nonneg ht
  positivity

theorem roundAt_mono (k : ℤ) {x y : ℚ} (h : x ≤ y) :
    (roundHalfEven (x / pow2 k) : ℚ) * pow2 k ≤ (roundHalfEven (y / pow2 k) : ℚ) * pow2 k := by
  have hp := pow2_pos k
  have hdiv : x / pow2 k ≤ y / pow2 k := by
    exact div_le_div_of_nonneg_right h hp.le
  have hr : (roundHalfEven (x / pow2 k) : ℚ) ≤ (roundHalfEven (y / pow2 k) : ℚ) := by
    exact_mod_cast roundHalfEven_mono hdiv
  exact mul_le_mul_of_nonneg_right hr hp.le

theorem roundAt_grid (k j : ℤ) (hj : 0 ≤ j) :
    (roundHalfEven (pow2 (k + j) / pow2 k) : ℚ) * pow2 k = pow2 (k + j) := by
  have hp := pow2_pos k
  have hq : pow2 (k + j) / pow2 k = ((2 ^ j.toNat : ℤ) : ℚ) := by
    rw [pow2_add, mul_div_cancel_left₀ _ hp.ne', pow2_eq]
    have : j = (j.toNat : ℤ) := (Int.toNat_of_nonneg hj).symm
    conv_lhs => rw [this]
    rw [zpow_natCast]
    push_cast
    rfl
  rw [hq, roundHalfEven_intCast, ← hq]
  field_simp

theorem gridRoundPos_mono {x y : ℚ} (hx : 0 < x) (hxy : x ≤ y) :
    gridRoundPos x ≤ gridRoundPos y := by
  have hy : 0 < y := lt_of_lt_of_le hx hxy
  have hfl := floorLog2_mono hx hxy
  have hk : ulpExponent x ≤ ulpExponent y := by
    unfold ulpExponent
    have : max (floorLog2 x) (-1022) ≤ max (floorLog2 y) (-1022) := max_le_max hfl (le_refl _)
    omega
  unfold gridRoundPos
  rcases lt_or_eq_of_le hk with hlt | heq
  · -- different binades: a power of two lies between the two results
    obtain ⟨_, hxu⟩ := floorLog2_bracket x hx
    obtain ⟨hyl, _⟩ := floorLog2_bracket y hy
    have hey : max (floorLog2 y) (-1022) = floorLog2 y := by
      unfold ulpExponent at hlt
      apply max_eq_left
      by_contra hcon
      have h1 : max (floorLog2 y) (-1022) = -1022 := max_eq_right (by omega)
      have h2 : (-1022 : ℤ) ≤ max (floorLog2 x) (-1022) := le_max_right _ _
      omega
    have hkx : ulpExponent x + 53 = max (floorLog2 x) (-1022) + 1 := by
      unfold ulpExponent; ring
    have hky : ulpExponent y + 52 = floorLog2 y := by
      unfold ulpExponent; rw [hey]; ring
    have hxB : x ≤ pow2 (ulpExponent x + 53) := by
      rw [hkx]
      refine le_trans hxu.le (pow2_le ?_)
      have := le_max_left (floorLog2 x) (-1022)
      omega
    have hBy : pow2 (ulpExponent y + 52) ≤ y := by rw [hky]; exact hyl
    have hBB : pow2 (ulpExponent x + 53) ≤ pow2 (ulpExponent y + 52) := pow2_le (by omega)
    calc (roundHalfEven (x / pow2 (ulpExponent x)) : ℚ) * pow2 (ulpExponent x)
        ≤ (roundHalfEven (pow2 (ulpExponent x + 53) / pow2 (ulpExponent x)) : ℚ)
            * pow2 (ulpExponent x) := roundAt_mono _ hxB
      _ = pow2 (ulpExponent x + 53) := roundAt_grid _ 53 (by norm_num)
      _ ≤ pow2 (ulpExponent y + 52) := hBB
      _ = (roundHalfEven (pow2 (ulpExponent y + 52) / pow2 (ulpExponent y)) : ℚ)
            * pow2 (ulpExponent y) := (roundAt_grid _ 52 (by norm_num)).symm
      _ ≤ (roundHalfEven (y / pow2 (ulpExponent y)) : ℚ) * pow2 (ulpExponent y) :=
          roundAt_mono _ hBy
  · rw [heq]
    exact roundAt_mono _ hxy

theorem gridRound_mono {x y : ℚ} (hxy : x ≤ y) : gridRound x ≤ gridRound y := by
  unfold gridRound
  by_cases hx : 0 < x
  · have hy : 0 < y := lt_of_lt_of_le hx hxy
    rw [if_pos hx, if_pos hy]
    exact gridRoundPos_mono hx hxy
  · rw [if_neg hx]
    by_cases hy : 0 < y
    · rw [if_pos hy]
      have h0 := gridRoundPos_nonneg hy
      by_cases hx2 : x < 0
      · rw [if_pos hx2]
        have := gridRoundPos_nonneg (x := -x) (by linarith)
        linarith
      · rw [if_neg hx2]; exact h0
    · rw [if_neg hy]
      by_cases hy2 : y < 0
      · have hx2 : x < 0 := lt_of_le_of_lt hxy hy2
        rw [if_pos hx2, if_pos hy2]
        have := gridRoundPos_mono (x := -y) (y := -x) (by linarith) (by linarith)
        linarith
      · rw [if_neg hy2]
        by_cases hx2 : x < 0
        · rw [if_pos hx2]
          have := gridRoundPos_nonneg (x := -x) (by linarith)
          linarith
        · rw [if_neg hx2]

theorem gridRound_pos_imp {x : ℚ} (h : 0 < gridRound x) : 0 < x := by
  by_contra hx
  have h0 : gridRound x ≤ gridRound 0 := gridRound_mono (not_lt.mp hx)
  have : gridRound 0 = 0 := by simp [gridRound]
  linarith

theorem gridRound_neg_imp {x : ℚ} (h : gridRound x < 0) : x < 0 := by
  by_contra hx
  have h0 : gridRound 0 ≤ gridRound x := gridRound_mono (not_lt.mp hx)
  have : gridRound 0 = 0 := by simp [gridRound]
  linarith

theorem ofExact_rounds (b : Bool) (x : ℚ) : Rounds (ofExact b x) (gridRound x) := by
  unfold ofExact Rounds
  by_cases h1 : pow2 1024 ≤ gridRound x
  · left; simp [h1]
  · by_cases h2 : gridRound x ≤ -pow2 1024
    · right; left; simp [h1, h2]
    · right; right
      rw [if_neg h1, if_neg h2]
      refine ⟨?_, not_le.mp h2, not_le.mp h1⟩
      by_cases h3 : gridRound x = 0
      · rw [if_pos h3, h3]
        cases b <;> rfl
      · rw [if_neg h3]; rfl

theorem ofExact_gtZero {b : Bool} {x : ℚ} (h : (ofExact b x).gtZero = true) : 0 < x := by
  apply gridRound_pos_imp
  have hp := pow2_pos 1024
  rcases ofExact_rounds b x with ⟨_, h2⟩ | ⟨h1, _⟩ | ⟨h1, _, _⟩
  · linarith
  · rw [h1] at h; simp [gtZero] at h
  · generalize ofExact b x = X at h h1
    cases X <;> simp_all [finiteValue, gtZero]

theorem ofExact_ltZero {b : Bool} {x : ℚ} (h : (ofExact b x).ltZero = true) : x < 0 := by
  apply gridRound_neg_imp
  have hp := pow2_pos 1024
  rcases ofExact_rounds b x with ⟨h1, _⟩ | ⟨_, h2⟩ | ⟨h1, _, _⟩
  · rw [h1] at h; simp [ltZero] at h
  · linarith
  · generalize ofExact b x = X at h h1
    cases X <;> simp_all [finiteValue, ltZero]

theorem zero_gtZero (b : Bool) : (zero b).gtZero = false := by
  cases b <;> simp [zero, gtZero]

theorem zero_ltZero (b : Bool) : (zero b).ltZero = false := by
  cases b <;> simp [zero, ltZero]

theorem finiteValue_neg {Y : JSNum} {y : ℚ} (h : Y.finiteValue = some y) :
    (neg Y).finiteValue = some (-y) := by
  cases Y with
  | fin q =>
    simp only [finiteValue, Option.some.injEq] at h
    subst h
    by_cases hq : q = 0
    · simp [neg, hq, finiteValue]
    · simp [neg, hq, finiteValue]
  | negZero =>
    simp only [finiteValue, Option.some.injEq] at h
    subst h
    simp [neg, finiteValue]
  | pinf => simp [finiteValue] at h
  | ninf => simp [finiteValue] at h
  | nan => simp [finiteValue] at h

theorem ne_nan_of_finiteValue {X : JSNum} {x : ℚ} (h : X.finiteValue = some x) : X ≠ nan := by
  intro hX; rw [hX] at h; simp [finiteValue] at h

theorem add_finite {X Y : JSNum} {x y : ℚ} (hX : X.finiteValue = some x)
    (hY : Y.finiteValue = some y) :
    add X Y = if x + y = 0 then zero (X.signBit && Y.signBit)
      else ofExact (decide (x + y < 0)) (x + y) := by
  unfold add
  rw [if_neg (by simp [ne_nan_of_finiteValue hX, ne_nan_of_finiteValue hY]), hX, hY]

theorem sub_finite_gtZero {X Y : JSNum} {x y : ℚ} (hX : X.finiteValue = some x)
    (hY : Y.finiteValue = some y) (h : (sub X Y).gtZero = true) : y < x := by
  unfold sub at h
  rw [add_finite hX (finiteValue_neg hY)] at h
  by_cases h0 : x + -y = 0
  · rw [if_pos h0, zero_gtZero] at h; simp at h
  · rw [if_neg h0] at h
    have := ofExact_gtZero h
    linarith

theorem sub_finite_ltZero {X Y : JSNum} {x y : ℚ} (hX : X.finiteValue = some x)
    (hY : Y.finiteValue = some y) (h : (sub X Y).ltZero = true) : x < y := by
  unfold sub at h
  rw [add_finite hX (finiteValue_neg hY)] at h
  by_cases h0 : x + -y = 0
  · rw [if_pos h0, zero_ltZero] at h; simp at h
  · rw [if_neg h0] at h
    have := ofExact_ltZero h
    linarith

theorem finiteValue_cases {X : JSNum} {x : ℚ} (h : X.finiteValue = some x) :
    X = fin x ∨ (X = negZero ∧ x = 0) := by
  cases X <;> simp_all [finiteValue]

theorem sub_rounds_not_ltZero {X Y : JSNum} {r1 r2 : ℚ} (hX : Rounds X r1) (hY : Rounds Y r2)
    (hle : r2 ≤ r1) : (sub X Y).ltZero = false := by
  have hp := pow2_pos 1024
  rcases hX with ⟨rfl, h1⟩ | ⟨rfl, h1⟩ | ⟨hx, h1, h1'⟩
  · rcases hY with ⟨rfl, _⟩ | ⟨rfl, _⟩ | ⟨hy, _, _⟩
    · decide
    · decide
    · rcases finiteValue_cases hy with rfl | ⟨rfl, _⟩
      · by_cases hr : r2 = 0 <;> simp [sub, neg, add, finiteValue, ltZero, hr]
      · decide
  · rcases hY with ⟨rfl, h2⟩ | ⟨rfl, _⟩ | ⟨_, h2, _⟩
    · linarith
    · decide
    · linarith
  · rcases hY with ⟨rfl, h2⟩ | ⟨rfl, _⟩ | ⟨hy, _, _⟩
    · linarith
    · rcases finiteValue_cases hx with rfl | ⟨rfl, _⟩
      · simp [sub, neg, add, finiteValue, ltZero]
      · decide
    · by_contra hcon
      have hlt : (sub X Y).ltZero = true := by simpa using hcon
      have := sub_finite_ltZero hx hy hlt
      linarith

theorem sub_rounds_not_gtZero {X Y : JSNum} {r1 r2 : ℚ} (hX : Rounds X r1) (hY : Rounds Y r2)
    (hle : r1 ≤ r2) : (sub X Y).gtZero = false := by
  have hp := pow2_pos 1024
  rcases hX with ⟨rfl, h1⟩ | ⟨rfl, h1⟩ | ⟨hx, h1, h1'⟩
  · rcases hY with ⟨rfl, _⟩ | ⟨rfl, h2⟩ | ⟨_, _, h2⟩
    · decide
    · linarith
    · linarith
  · rcases hY with ⟨rfl, h2⟩ | ⟨rfl, _⟩ | ⟨hy, _, _⟩
    · decide
    · decide
    · rcases finiteValue_cases hy with rfl | ⟨rfl, _⟩
      · by_cases hr : r2 = 0 <;> simp [sub, neg, add, finiteValue, gtZero, hr]
      · decide
  · rcases hY with ⟨rfl, h2⟩ | ⟨rfl, h2⟩ | ⟨hy, _, _⟩
    · rcases finiteValue_cases hx with rfl | ⟨rfl, _⟩
      · simp [sub, neg, add, finiteValue, gtZero]
      · decide
    · linarith
    · by_contra hcon
      have hgt : (sub X Y).gtZero = true := by simpa using hcon
      have := sub_finite_gtZero hx hy hgt
      linarith

theorem mul_fin_fin (x y : ℚ) :
    mul (fin x) (fin y) = ofExact (xor (decide (x < 0)) (decide (y < 0))) (x * y) := by
  simp [mul, finiteValue, signBit]

theorem mul_pos_gtZero {X : JSNum} {c : ℚ} (hc : 0 < c) (h : (mul X (fin c)).gtZero = true) :
    X.gtZero = true := by
  cases X with
  | fin q =>
    rw [mul_fin_fin] at h
    have := ofExact_gtZero h
    have hq : 0 < q := by
      by_contra hq
      have : q * c ≤ 0 := mul_nonpos_of_nonpos_of_nonneg (not_lt.mp hq) hc.le
      linarith
    simp [gtZero, hq]
  | negZero =>
    have h2 : mul negZero (fin c) = ofExact (xor true (decide (c < 0))) (0 * c) := by
      simp [mul, finiteValue, signBit]
    rw [h2] at h
    have := ofExact_gtZero h
    simp at this
  | pinf => rfl
  | ninf =>
    have hc0 : c ≠ 0 := hc.ne'
    have hcn : ¬ c < 0 := not_lt.mpr hc.le
    simp [mul, finiteValue, signBit, hc0, hcn, infinity, gtZero] at h
  | nan => simp [mul, gtZero] at h

theorem mul_pos_ltZero {X : JSNum} {c : ℚ} (hc : 0 < c) (h : (mul X (fin c)).ltZero = true) :
    X.ltZero = true := by
  cases X with
  | fin q =>
    rw [mul_fin_fin] at h
    have := ofExact_ltZero h
    have hq : q < 0 := by
      by_contra hq
      have : 0 ≤ q * c := mul_nonneg (not_lt.mp hq) hc.le
      linarith
    simp [ltZero, hq]
  | negZero =>
    have h2 : mul negZero (fin c) = ofExact (xor true (decide (c < 0))) (0 * c) := by
      simp [mul, finiteValue, signBit]
    rw [h2] at h
    have := ofExact_ltZero h
    simp at this
  | pinf =>
    have hc0 : c ≠ 0 := hc.ne'
    have hcn : ¬ c < 0 := not_lt.mpr hc.le
    simp [mul, finiteValue, signBit, hc0, hcn, infinity, ltZero] at h
  | ninf => rfl
  | nan => simp [mul, ltZero] at h

theorem div_pos_gtZero {X : JSNum} {c : ℚ} (hc : 0 < c) (h : (div X (fin c)).gtZero = true) :
    X.gtZero = true := by
  have hc0 : c ≠ 0 := hc.ne'
  have hcn : ¬ c < 0 := not_lt.mpr hc.le
  cases X with
  | fin q =>
    have h2 : div (fin q) (fin c)
        = ofExact (xor (decide (q < 0)) (decide (c < 0))) (q / c) := by
      simp [div, finiteValue, signBit, hc0]
    rw [h2] at h
    have := ofExact_gtZero h
    have hq : 0 < q := by
      by_contra hq
      have : q / c ≤ 0 := div_nonpos_of_nonpos_of_nonneg (not_lt.mp hq) hc.le
      linarith
    simp [gtZero, hq]
  | negZero =>
    have h2 : div negZero (fin c) = ofExact (xor true (decide (c < 0))) (0 / c) := by
      simp [div, finiteValue, signBit, hc0]
    rw [h2] at h
    have := ofExact_gtZero h
    simp at this
  | pinf => rfl
  | ninf => simp [div, finiteValue, signBit, hcn, infinity, gtZero] at h
  | nan => simp [div, gtZero] at h

theorem div_pos_ltZero {X : JSNum} {c : ℚ} (hc : 0 < c) (h : (div X (fin c)).ltZero = true) :
    X.ltZero = true := by
  have hc0 : c ≠ 0 := hc.ne'
  have hcn : ¬ c < 0 := not_lt.mpr hc.le
  cases X with
  | fin q =>
    have h2 : div (fin q) (fin c)
        = ofExact (xor (decide (q < 0)) (decide (c < 0))) (q / c) := by
      simp [div, finiteValue, signBit, hc0]
    rw [h2] at h
    have := ofExact_ltZero h
    have hq : q < 0 := by
      by_contra hq
      have : 0 ≤ q / c := div_nonneg (not_lt.mp hq) hc.le
      linarith
    simp [ltZero, hq]
  | negZero =>
    have h2 : div negZero (fin c) = ofExact (xor true (decide (c < 0))) (0 / c) := by
      simp [div, finiteValue, signBit, hc0]
    rw [h2] at h
    have := ofExact_ltZero h
    simp at this
  | pinf => simp [div, finiteValue, signBit, hcn, infinity, ltZero] at h
  | ninf => rfl
  | nan => simp [div, ltZero] at h

end JSNum

theorem renderHolding_row (t : Totals) (h : HoldingRecord) :
    (renderHolding t h).2 = if h.current_price.isKnown then h.pricedRow else h.unpricedRow := by
  unfold renderHolding
  by_cases hk : h.current_price.isKnown = true <;> simp [hk]

theorem renderHoldings_rows (t : Totals) (hs : List HoldingRecord) :
    (renderHoldings t hs).2 =
      hs.map (fun h => if h.current_price.isKnown then h.pricedRow else h.unpricedRow) := by
  induction hs generalizing t with
  | nil => rfl
  | cons h hs ih =>
    simp only [renderHoldings, List.map_cons]
    rw [ih, renderHolding_row]

theorem mapItems_records (t : Totals) (hs : List HoldingRecord) :
    mapItems t (hs.map Item.record) = Except.ok (renderHoldings t hs) := by
  induction hs generalizing t with
  | nil => rfl
  | cons h hs ih =>
    simp only [List.map_cons, mapItems, Item.props, renderHoldings]
    rw [ih]

theorem mapItems_null (t : Totals) (items : List Item) (hn : Item.null ∈ items) :
    ∃ e, mapItems t items = Except.error e := by
  induction items generalizing t with
  | nil => simp at hn
  | cons it its ih =>
    cases it with
    | null => exact ⟨_, rfl⟩
    | prim =>
      have hn1 : Item.null ∈ its := by simpa using hn
      obtain ⟨e, he⟩ := ih _ hn1
      exact ⟨e, by simp only [mapItems, Item.props]; rw [he]⟩
    | record h =>
      have hn1 : Item.null ∈ its := by simpa using hn
      obtain ⟨e, he⟩ := ih _ hn1
      exact ⟨e, by simp only [mapItems, Item.props]; rw [he]⟩

theorem JSField.orElse_of_not_known (f : JSField) (d : JSNum) (hf : f.isKnown = false) :
    f.orElse d = d := by
  cases f with
  | undefined => rfl
  | null => rfl
  | num n => simp [JSField.isKnown] at hf

/-! ## Portfolio totals -/

/-- C1: on the rows (cost basis 100, current value 120) and (cost basis 50,
price unknown) `loadHoldings` accumulates a total current value of 120 but a
total cost basis of 150, because `totalCostBasis += costBasis` runs before the
price test; the total P&L is therefore `-30`, shown as `$30.00` with class
`negative`, and the unpriced row does not contribute zero to the cost sum. -/
theorem totals_count_unpriced_cost_basis :
    (renderHoldings Totals.zero [gainExample, unpricedExample]).1 =
        { totalCostBasis := JSNum.fin 150, totalCurrentValue := JSNum.fin 120 } ∧
      (renderHoldings Totals.zero [gainExample, unpricedExample]).1.totalPnl = JSNum.fin (-30) ∧
      (renderHoldings Totals.zero [gainExample, unpricedExample]).1.summary =
        { totalCurrentValue := { cls := "", text := "$120.00" }
          totalPnl := { cls := "negative", text := "$30.00" }
          totalPnlPct := { cls := "negative", text := "20.00%" } } ∧
      (renderHolding Totals.zero unpricedExample).1.totalCostBasis = JSNum.fin 50 := by
  decide!

/-! ## Current value of a row -/

/-- C2 (as stated, refuted): it is not the case that the displayed current
value equals every present server-provided `current_value`; a reported `0` is
replaced by `shares * current_price`. -/
theorem server_zero_current_value_replaced :
    ¬ ∀ (h : HoldingRecord) (v : JSNum), h.current_price.isKnown = true →
        h.current_value = JSField.num v →
        h.currentValue = v ∧
          (renderHolding Totals.zero h).2.currentValue = "$" ++ JSNum.toFixed v 2 := by
  intro hall
  have hc := (hall zeroValueExample (JSNum.fin 0) rfl rfl).1
  revert hc
  decide!

/-- C2 (amended): for a record with a known price, the value shown in the row
and added to the running total is the server-provided `current_value` when
that field is a number other than `0` and NaN, and `shares * current_price`
when the field is absent, `null` or `0`. -/
theorem currentValue_server_or_derived (t : Totals) (h : HoldingRecord)
    (hk : h.current_price.isKnown = true) :
    (renderHolding t h).2.currentValue = "$" ++ JSNum.toFixed h.currentValue 2 ∧
      (renderHolding t h).1.totalCurrentValue = JSNum.add t.totalCurrentValue h.currentValue ∧
      (∀ v, h.current_value = JSField.num v → v.truthy = true → h.currentValue = v) ∧
      (h.current_value = JSField.undefined ∨ h.current_value = JSField.null ∨
          h.current_value = JSField.num (JSNum.fin 0) →
        h.currentValue = JSNum.mul h.shares.toNumber h.current_price.toNumber) := by
  refine ⟨?_, ?_, ?_, ?_⟩
  · simp [renderHolding, hk, HoldingRecord.pricedRow]
  · simp [renderHolding, hk]
  · intro v hv htr
    simp [HoldingRecord.currentValue, hv, JSField.orElse, htr]
  · intro hcases
    rcases hcases with h0 | h0 | h0 <;>
      simp [HoldingRecord.currentValue, h0, JSField.orElse, JSNum.truthy]

/-- Instance of the amended C2 on a record whose service value `0` is replaced
by `2 * 5`. -/
theorem currentValue_server_or_derived_witness :
    zeroValueExample.current_price.isKnown = true ∧
      (renderHolding Totals.zero zeroValueExample).2.currentValue =
        "$" ++ JSNum.toFixed zeroValueExample.currentValue 2 ∧
      zeroValueExample.currentValue = JSNum.fin 10 :=
  ⟨rfl, (currentValue_server_or_derived Totals.zero zeroValueExample rfl).1, by decide!⟩

/-! ## Sign and style of the P&L cells -/

/-- C3: a record whose P&L is `-12.5` is rendered with the P&L text `$12.50`
and the percent text `12.50%`, without a minus sign (the sign prefix is empty
for negative values and the magnitude goes through `Math.abs`); the same
happens in the portfolio totals. -/
theorem negative_pnl_rendered_without_minus :
    lossExample.pnlValue = JSNum.fin (-25 / 2) ∧
      (renderHolding Totals.zero lossExample).2.pnl = { cls := "pnl negative", text := "$12.50" } ∧
      (renderHolding Totals.zero lossExample).2.pnlPercent =
        { cls := "pnl-percent negative", text := "12.50%" } ∧
      (renderHoldings Totals.zero [lossExample]).1.summary.totalPnl =
        { cls := "negative", text := "$12.50" } ∧
      (renderHoldings Totals.zero [lossExample]).1.summary.totalPnlPct =
        { cls := "negative", text := "12.50%" } := by
  decide!

/-- C4 (as stated, refuted): the claim fails in two ways.  A record for which
the service reports `pnl = 0` is not always rendered as `+$0.00` with class
`positive`: the reported `0` is discarded and the derived `95 - 100 = -5` is
shown as `$5.00` with class `negative`.  And the class `negative` is not
carried only when the P&L is `< 0`: for `1e308` shares bought at `10` and
priced at `20` both products overflow, the P&L is `Infinity - Infinity = NaN`,
which is not `< 0`, and the cells carry `negative`. -/
theorem pnl_cells_claim_refuted :
    (¬ ∀ (h : HoldingRecord), h.current_price.isKnown = true →
        h.pnl = JSField.num (JSNum.fin 0) →
        (renderHolding Totals.zero h).2.pnl = { cls := "pnl positive", text := "+$0.00" }) ∧
      (¬ ∀ (h : HoldingRecord), h.current_price.isKnown = true →
        ((renderHolding Totals.zero h).2.pnl.cls = "pnl negative" ↔
          h.pnlValue.ltZero = true)) := by
  constructor
  · intro hall
    have hc := hall zeroPnlExample rfl rfl
    revert hc
    decide!
  · intro hall
    have hc := (hall overflowExample rfl).mp (by decide!)
    revert hc
    decide!

/-- C4 (amended): for a record with a known price, where the P&L is the
server-provided `pnl` when that is a number other than `0` and NaN and
otherwise current value minus cost basis, both P&L cells carry the class
`positive` exactly when that P&L is `>= 0`, and `negative` exactly when it is
`< 0` or NaN; and when it is exactly zero the P&L cell reads `+$0.00` with
class `positive`. -/
theorem pnl_class_by_effective_pnl (t : Totals) (h : HoldingRecord)
    (hk : h.current_price.isKnown = true) :
    (h.pnl = JSField.undefined ∨ h.pnl = JSField.null ∨ h.pnl = JSField.num (JSNum.fin 0) →
        h.pnlValue = JSNum.sub h.currentValue h.costBasis) ∧
      (∀ v, h.pnl = JSField.num v → v.truthy = true → h.pnlValue = v) ∧
      (((renderHolding t h).2.pnl.cls = "pnl positive" ∧
          (renderHolding t h).2.pnlPercent.cls = "pnl-percent positive") ↔
        h.pnlValue.geZero = true) ∧
      (((renderHolding t h).2.pnl.cls = "pnl negative" ∧
          (renderHolding t h).2.pnlPercent.cls = "pnl-percent negative") ↔
        (h.pnlValue.ltZero = true ∨ h.pnlValue = JSNum.nan)) ∧
      (h.pnlValue = JSNum.fin 0 ∨ h.pnlValue = JSNum.negZero →
        (renderHolding t h).2.pnl = { cls := "pnl positive", text := "+$0.00" }) := by
  have hrow : (renderHolding t h).2 = h.pricedRow := by
    rw [renderHolding_row]; simp [hk]
  have hlt : (h.pnlValue.ltZero = true ∨ h.pnlValue = JSNum.nan) ↔
      h.pnlValue.geZero = false := by
    cases h.pnlValue with
    | fin q =>
      simp only [JSNum.ltZero, JSNum.geZero]
      by_cases h0 : 0 ≤ q
      · simp [h0, not_lt.mpr h0]
      · simp [h0, not_le.mp h0]
    | negZero => simp [JSNum.ltZero, JSNum.geZero]
    | pinf => simp [JSNum.ltZero, JSNum.geZero]
    | ninf => simp [JSNum.ltZero, JSNum.geZero]
    | nan => simp [JSNum.ltZero, JSNum.geZero]
  refine ⟨?_, ?_, ?_, ?_, ?_⟩
  · intro hcases
    rcases hcases with h0 | h0 | h0 <;>
      simp [HoldingRecord.pnlValue, h0, JSField.orElse, JSNum.truthy]
  · intro v hv htr
    simp [HoldingRecord.pnlValue, hv, JSField.orElse, htr]
  · rw [hrow]
    by_cases hge : h.pnlValue.geZero = true
    · simp [HoldingRecord.pricedRow, HoldingRecord.pnlClass, hge]
    · simp only [HoldingRecord.pricedRow, HoldingRecord.pnlClass, hge]
      simp
  · rw [hrow, hlt]
    by_cases hge : h.pnlValue.geZero = true
    · simp only [HoldingRecord.pricedRow, HoldingRecord.pnlClass, hge]
      simp
    · simp [HoldingRecord.pricedRow, HoldingRecord.pnlClass, hge]
  · intro h0
    rw [hrow]
    rcases h0 with h0 | h0 <;>
      · simp only [HoldingRecord.pricedRow, HoldingRecord.pnlClass, HoldingRecord.pnlSign, h0]
        decide!

/-- Instance of the amended C4: with `pnl: 0` reported, the P&L used is the
derived `95 - 100 = -5`, and both cells carry `negative`. -/
theorem pnl_class_by_effective_pnl_witness :
    zeroPnlExample.current_price.isKnown = true ∧
      zeroPnlExample.pnlValue = JSNum.fin (-5) ∧
      (renderHolding Totals.zero zeroPnlExample).2.pnl.cls = "pnl negative" ∧
      (renderHolding Totals.zero zeroPnlExample).2.pnlPercent.cls = "pnl-percent negative" :=
  have hw := pnl_class_by_effective_pnl Totals.zero zeroPnlExample rfl
  have hv : zeroPnlExample.pnlValue = JSNum.fin (-5) :=
    (hw.1 (Or.inr (Or.inr rfl))).trans (by decide!)
  have hc := hw.2.2.2.1.mpr (Or.inl (by rw [hv]; decide!))
  ⟨rfl, hv, hc.1, hc.2⟩

/-! ## One row per record, placeholders for unknown prices -/

/-- C5: for every list of records `loadHoldings` completes without an error
notification and writes exactly one row per record, in the order received;
a record whose price is `null` or `undefined` is kept at its position and
rendered with `N/A` for the price and `-` for value, P&L and P&L percent, with
its symbol shown, its shares shown as the `shares` number with 3 decimals and
its average cost as `$` and the `avg_cost` number with 2 decimals. -/
theorem loadHoldings_one_row_per_record (hs : List HoldingRecord) (now : String) (d : Dom) :
    ∃ d1, loadHoldings (Response.decoded (Decoded.array (hs.map Item.record))) now d
          = Except.ok d1 ∧
      d1.toasts = d.toasts ∧
      d1.holdingsBody.length = hs.length ∧
      d1.holdingsBody =
        hs.map (fun h => if h.current_price.isKnown then h.pricedRow else h.unpricedRow) ∧
      ∀ (i : Nat) (h : HoldingRecord), hs[i]? = some h → h.current_price.isKnown = false →
        ∃ r, d1.holdingsBody[i]? = some r ∧
          r.symbol = h.symbol ∧ r.deleteSymbol = h.symbol ∧
          r.currentPrice = "N/A" ∧ r.currentValue = "-" ∧
          r.pnl = { cls := "pnl", text := "-" } ∧
          r.pnlPercent = { cls := "pnl-percent", text := "-" } ∧
          (∀ q, h.shares = JSField.num (JSNum.fin q) →
            r.shares = JSNum.toFixed (JSNum.fin q) 3) ∧
          (∀ q, h.avg_cost = JSField.num (JSNum.fin q) →
            r.avgCost = "$" ++ JSNum.toFixed (JSNum.fin q) 2) := by
  refine ⟨{ d with holdingsBody := (renderHoldings Totals.zero hs).2
                   summary := (renderHoldings Totals.zero hs).1.summary
                   lastUpdateTime := now }, ?_, rfl, ?_, ?_, ?_⟩
  · simp only [loadHoldings, loadHoldingsTry, mapItems_records]
  · simp [renderHoldings_rows]
  · simp [renderHoldings_rows]
  · intro i h hi hk
    refine ⟨h.unpricedRow, ?_, rfl, rfl, rfl, rfl, rfl, rfl, ?_, ?_⟩
    · simp only [renderHoldings_rows, List.getElem?_map, hi, Option.map_some', hk]
      rfl
    · intro q hq
      simp [HoldingRecord.unpricedRow, hq, JSField.parseFloat]
    · intro q hq
      simp [HoldingRecord.unpricedRow, hq, JSField.parseFloat]

/-- Instance of C5 on a priced record followed by one without a price field
(`2.5` shares bought at `50.125`): the second row shows `KKK`, `2.500`,
`$50.13`, `N/A`, `-`, `-`, `-`. -/
theorem loadHoldings_one_row_per_record_witness :
    ∃ d1, loadHoldings (Response.decoded (Decoded.array
            ([gainExample, fractionalUnpricedExample].map Item.record))) "10:00:00" Dom.empty
          = Except.ok d1 ∧
      d1.holdingsBody.length = 2 ∧
      d1.holdingsBody[1]? = some
        { symbol := "KKK", shares := "2.500", avgCost := "$50.13", currentPrice := "N/A"
          currentValue := "-", pnl := { cls := "pnl", text := "-" }
          pnlPercent := { cls := "pnl-percent", text := "-" }, deleteSymbol := "KKK" } := by
  obtain ⟨d1, h1, _, h3, _, h5⟩ :=
    loadHoldings_one_row_per_record [gainExample, fractionalUnpricedExample] "10:00:00"
      Dom.empty
  obtain ⟨r, hr, e1, e2, e3, e4, e5, e6, e7, e8⟩ := h5 1 fractionalUnpricedExample rfl rfl
  refine ⟨d1, h1, h3, ?_⟩
  rw [hr]
  have e7q := e7 (5 / 2) rfl
  have e8q := e8 (401 / 8) rfl
  have t7 : JSNum.toFixed (JSNum.fin (5 / 2)) 3 = "2.500" := by decide!
  have t8 : "$" ++ JSNum.toFixed (JSNum.fin (401 / 8)) 2 = "$50.13" := by decide!
  rw [t7] at e7q
  rw [t8] at e8q
  cases r
  simp only [Row.mk.injEq, Option.some.injEq]
  simp only at e1 e2 e3 e4 e5 e6 e7q e8q
  exact ⟨e1, e7q, e8q, e3, e4, e5, e6, e2⟩

/-! ## Failures of the request -/

/-- C7 (as stated, refuted): a decoded value that is not a list of records does
not always end in one error notification with the page untouched.  The array
`[1]` is rendered: no notification is shown and the table body is replaced by a
row of `undefined` / `NaN` texts. -/
theorem non_record_array_is_rendered :
    ¬ ∀ (v : Decoded) (now : String) (d : Dom), v.isRecordList = false →
        ∃ d1, loadHoldings (Response.decoded v) now d = Except.ok d1 ∧
          d1.toasts.length = d.toasts.length + 1 ∧
          d1.holdingsBody = d.holdingsBody ∧ d1.summary = d.summary ∧
          d1.lastUpdateTime = d.lastUpdateTime := by
  intro hall
  obtain ⟨d1, h1, h2, _⟩ := hall (Decoded.array [Item.prim]) "10:00:00" Dom.empty rfl
  have hd : d1 = { Dom.empty with
      holdingsBody := (renderHoldings Totals.zero
        [{ symbol := "undefined", shares := JSField.undefined,
           avg_cost := JSField.undefined }]).2
      summary := (renderHoldings Totals.zero
        [{ symbol := "undefined", shares := JSField.undefined,
           avg_cost := JSField.undefined }]).1.summary
      lastUpdateTime := "10:00:00" } := by
    have h3 : loadHoldings (Response.decoded (Decoded.array [Item.prim])) "10:00:00" Dom.empty
        = Except.ok { Dom.empty with
            holdingsBody := (renderHoldings Totals.zero
              [{ symbol := "undefined", shares := JSField.undefined,
                 avg_cost := JSField.undefined }]).2
            summary := (renderHoldings Totals.zero
              [{ symbol := "undefined", shares := JSField.undefined,
                 avg_cost := JSField.undefined }]).1.summary
            lastUpdateTime := "10:00:00" } := rfl
    rw [h3] at h1
    exact (Except.ok.inj h1).symm
  rw [hd] at h2
  simp [Dom.empty] at h2

/-- C7 (amended): if `fetch` rejects, `response.json()` rejects, the decoded
value is not an array, or it is an array with a `null` element, then
`loadHoldings` raises nothing, shows exactly one error notification, and leaves
the table body, the three summary fields and the last-update time as they
were. -/
theorem loadHoldings_failure_keeps_page (resp : Response) (now : String) (d : Dom)
    (hf : (∃ m, resp = Response.fetchRejected m) ∨ (∃ m, resp = Response.jsonRejected m) ∨
      resp = Response.decoded Decoded.nonArray ∨
      ∃ items, resp = Response.decoded (Decoded.array items) ∧ Item.null ∈ items) :
    ∃ d1 m, loadHoldings resp now d = Except.ok d1 ∧
      d1.toasts = d.toasts ++ [{ message := "❌ Error loading holdings: " ++ m, isError := true }] ∧
      d1.holdingsBody = d.holdingsBody ∧ d1.summary = d.summary ∧
      d1.lastUpdateTime = d.lastUpdateTime := by
  rcases hf with ⟨m, rfl⟩ | ⟨m, rfl⟩ | rfl | ⟨items, rfl, hn⟩
  · exact ⟨_, m, rfl, rfl, rfl, rfl, rfl⟩
  · exact ⟨_, m, rfl, rfl, rfl, rfl, rfl⟩
  · exact ⟨_, _, rfl, rfl, rfl, rfl, rfl⟩
  · obtain ⟨e, he⟩ := mapItems_null Totals.zero items hn
    refine ⟨showToast ("❌ Error loading holdings: " ++ e) true d, e, ?_, rfl, rfl, rfl, rfl⟩
    simp only [loadHoldings, loadHoldingsTry, he]

/-- Instance of the amended C7: an array holding a record and then `null`
gives one error notification and an unchanged page. -/
theorem loadHoldings_failure_keeps_page_witness :
    ∃ d1 m, loadHoldings (Response.decoded (Decoded.array [Item.record gainExample, Item.null]))
          "10:00:00" Dom.empty = Except.ok d1 ∧
      d1.toasts = Dom.empty.toasts ++
        [{ message := "❌ Error loading holdings: " ++ m, isError := true }] ∧
      d1.holdingsBody = Dom.empty.holdingsBody ∧ d1.summary = Dom.empty.summary ∧
      d1.lastUpdateTime = Dom.empty.lastUpdateTime :=
  loadHoldings_failure_keeps_page _ "10:00:00" Dom.empty
    (Or.inr (Or.inr (Or.inr ⟨[Item.record gainExample, Item.null], rfl, by simp⟩)))

/-! ## Zero average cost -/

/-- C8: for a record with `avg_cost = 0` and price `5`, `loadHoldings` does not
raise, but the P&L percent is the result of the division by zero, `Infinity`,
and the cell shows `+Infinity%` rather than a placeholder. -/
theorem zero_avg_cost_shows_division_result :
    (∃ d1, loadHoldings (Response.decoded (Decoded.array [Item.record zeroCostExample]))
          "10:00:00" Dom.empty = Except.ok d1 ∧ d1.toasts = []) ∧
      zeroCostExample.pnlPercentValue = JSNum.pinf ∧
      (renderHolding Totals.zero zeroCostExample).2.pnlPercent =
        { cls := "pnl-percent positive", text := "+Infinity%" } ∧
      (renderHolding Totals.zero zeroCostExample).2.pnlPercent ≠
        zeroCostExample.unpricedRow.pnlPercent := by
  refine ⟨⟨_, rfl, rfl⟩, ?_, ?_, ?_⟩ <;> decide!

/-! ## Derived P&L and derived P&L percent -/

/-- C10 (as stated, refuted): for three shares bought at `12.34` and priced at
`12.339999999999998` the two products round to the same double, so the derived
P&L is `0` (class `positive`, sign `+`) while the derived percent is negative
(about `-1.44e-14`, shown as `+0.00%`); the percent is not `pnl / cost_basis *
100` and the two do not have the same sign. -/
theorem derived_percent_claim_refuted :
    (¬ ∀ (h : HoldingRecord) (s a p : ℚ),
        h.shares = JSField.num (JSNum.fin s) → h.avg_cost = JSField.num (JSNum.fin a) →
        h.current_price = JSField.num (JSNum.fin p) →
        h.current_value.isKnown = false → h.pnl.isKnown = false →
        h.pnl_percent.isKnown = false → s ≠ 0 → a ≠ 0 →
        h.pnlPercentValue = JSNum.mul (JSNum.div h.pnlValue h.costBasis) (JSNum.fin 100) ∧
          (0 < s → 0 < a → h.pnlValue.geZero = h.pnlPercentValue.geZero)) ∧
      roundingExample.avg_cost = JSField.num (JSNum.lit (1234 / 100)) ∧
      roundingExample.current_price =
        JSField.num (JSNum.lit (12339999999999998 / 1000000000000000)) ∧
      roundingExample.pnlValue = JSNum.fin 0 ∧
      roundingExample.pnlPercentValue.ltZero = true ∧
      (renderHolding Totals.zero roundingExample).2.pnlPercent =
        { cls := "pnl-percent positive", text := "+0.00%" } := by
  refine ⟨?_, by decide!, by decide!, by decide!, by decide!, by decide!⟩
  intro hall
  have hc := (hall roundingExample 3 (3473401212609495 / 281474976710656)
    (6946802425218989 / 562949953421312) rfl rfl rfl rfl rfl rfl
    (by norm_num) (by norm_num)).2 (by norm_num) (by norm_num)
  revert hc
  decide!

/-- C10 (amended): for a record with finite shares `s > 0`, average cost
`a > 0` and a known finite price `p`, for which the service supplies none of
`current_value`, `pnl` and `pnl_percent`, the derived figures are
`pnl = s*p - s*a` and `pnl_percent = (p - a) / a * 100`, every operation
rounded to a double.  They never have strictly opposite signs: a percent
`> 0` means `p > a` and a P&L that is not `< 0`, a percent `< 0` means `p < a`
and a P&L that is not `> 0`.  So the class taken from the P&L is `positive`
for a positive percent unless the P&L is NaN, and `negative` for a negative
percent unless the P&L is zero. -/
theorem derived_percent_sign_consistent (h : HoldingRecord) (s a p : ℚ)
    (hs : h.shares = JSField.num (JSNum.fin s)) (ha : h.avg_cost = JSField.num (JSNum.fin a))
    (hp : h.current_price = JSField.num (JSNum.fin p))
    (hcv : h.current_value.isKnown = false) (hpnl : h.pnl.isKnown = false)
    (hpct : h.pnl_percent.isKnown = false) (spos : 0 < s) (apos : 0 < a) :
    h.costBasis = JSNum.mul (JSNum.fin s) (JSNum.fin a) ∧
      h.pnlValue = JSNum.sub (JSNum.mul (JSNum.fin s) (JSNum.fin p))
        (JSNum.mul (JSNum.fin s) (JSNum.fin a)) ∧
      h.pnlPercentValue =
        JSNum.mul (JSNum.div (JSNum.sub (JSNum.fin p) (JSNum.fin a)) (JSNum.fin a))
          (JSNum.fin 100) ∧
      (h.pnlPercentValue.gtZero = true →
        a < p ∧ h.pnlValue.ltZero = false ∧
          (h.pnlClass = "positive" ∨ h.pnlValue = JSNum.nan)) ∧
      (h.pnlPercentValue.ltZero = true →
        p < a ∧ h.pnlValue.gtZero = false ∧
          (h.pnlClass = "negative" ∨ h.pnlValue = JSNum.fin 0 ∨
            h.pnlValue = JSNum.negZero)) := by
  have hcb : h.costBasis = JSNum.mul (JSNum.fin s) (JSNum.fin a) := by
    simp [HoldingRecord.costBasis, hs, ha, JSField.toNumber]
  have hcur : h.currentValue = JSNum.mul (JSNum.fin s) (JSNum.fin p) := by
    unfold HoldingRecord.currentValue
    rw [JSField.orElse_of_not_known _ _ hcv]
    simp [hs, hp, JSField.toNumber]
  have hpv : h.pnlValue = JSNum.sub (JSNum.mul (JSNum.fin s) (JSNum.fin p))
      (JSNum.mul (JSNum.fin s) (JSNum.fin a)) := by
    unfold HoldingRecord.pnlValue
    rw [JSField.orElse_of_not_known _ _ hpnl, hcur, hcb]
  have hpc : h.pnlPercentValue =
      JSNum.mul (JSNum.div (JSNum.sub (JSNum.fin p) (JSNum.fin a)) (JSNum.fin a))
        (JSNum.fin 100) := by
    unfold HoldingRecord.pnlPercentValue
    rw [JSField.orElse_of_not_known _ _ hpct]
    simp [hp, ha, JSField.toNumber]
  have hX := JSNum.ofExact_rounds (xor (decide (s < 0)) (decide (p < 0))) (s * p)
  have hY := JSNum.ofExact_rounds (xor (decide (s < 0)) (decide (a < 0))) (s * a)
  rw [← JSNum.mul_fin_fin] at hX hY
  refine ⟨hcb, hpv, hpc, ?_, ?_⟩
  · intro hgt
    rw [hpc] at hgt
    have h1 := JSNum.mul_pos_gtZero (by norm_num : (0 : ℚ) < 100) hgt
    have h2 := JSNum.div_pos_gtZero apos h1
    have h3 : a < p := JSNum.sub_finite_gtZero (show (JSNum.fin p).finiteValue = some p from rfl)
      (show (JSNum.fin a).finiteValue = some a from rfl) h2
    have hmono : JSNum.gridRound (s * a) ≤ JSNum.gridRound (s * p) :=
      JSNum.gridRound_mono (by nlinarith)
    have h4 : h.pnlValue.ltZero = false := by
      rw [hpv]; exact JSNum.sub_rounds_not_ltZero hX hY hmono
    refine ⟨h3, h4, ?_⟩
    unfold HoldingRecord.pnlClass
    cases hv : h.pnlValue with
    | fin q =>
      rw [hv] at h4
      simp only [JSNum.ltZero, decide_eq_false_iff_not, not_lt] at h4
      simp [JSNum.geZero, h4]
    | negZero => simp [JSNum.geZero]
    | pinf => simp [JSNum.geZero]
    | ninf => rw [hv] at h4; simp [JSNum.ltZero] at h4
    | nan => simp
  · intro hlt
    rw [hpc] at hlt
    have h1 := JSNum.mul_pos_ltZero (by norm_num : (0 : ℚ) < 100) hlt
    have h2 := JSNum.div_pos_ltZero apos h1
    have h3 : p < a := JSNum.sub_finite_ltZero (show (JSNum.fin p).finiteValue = some p from rfl)
      (show (JSNum.fin a).finiteValue = some a from rfl) h2
    have hmono : JSNum.gridRound (s * p) ≤ JSNum.gridRound (s * a) :=
      JSNum.gridRound_mono (by nlinarith)
    have h4 : h.pnlValue.gtZero = false := by
      rw [hpv]; exact JSNum.sub_rounds_not_gtZero hX hY hmono
    refine ⟨h3, h4, ?_⟩
    unfold HoldingRecord.pnlClass
    cases hv : h.pnlValue with
    | fin q =>
      rw [hv] at h4
      simp only [JSNum.gtZero, decide_eq_false_iff_not, not_lt] at h4
      by_cases hq : q = 0
      · right; left; rw [hq]
      · left
        have : ¬ 0 ≤ q := fun h0 => hq (le_antisymm h4 h0)
        simp [JSNum.geZero, this]
    | negZero => simp
    | pinf => rw [hv] at h4; simp [JSNum.gtZero] at h4
    | ninf => simp [JSNum.geZero]
    | nan => simp [JSNum.geZero]

/-- Instance of the amended C10 on the holding bought at `100` and priced at
`87.5`: the percent is negative, so `87.5 < 100` and the P&L is not positive. -/
theorem derived_percent_sign_consistent_witness :
    lossExample.pnlPercentValue.ltZero = true ∧
      lossExample.pnlValue = JSNum.sub (JSNum.mul (JSNum.fin 1) (JSNum.fin (175 / 2)))
        (JSNum.mul (JSNum.fin 1) (JSNum.fin 100)) ∧
      lossExample.pnlValue.gtZero = false :=
  have hw := derived_percent_sign_consistent lossExample 1 100 (175 / 2) rfl rfl rfl rfl rfl rfl
    (by norm_num) (by norm_num)
  have hlt : lossExample.pnlPercentValue.ltZero = true := by decide!
  ⟨hlt, hw.2.1, (hw.2.2.2.2 hlt).2.1⟩

/-! ## Auto-refresh timers -/

/-- C6: after a page load with the holdings tab active, a click on the holdings
tab and then a switch to the watchlist tab, the first interval timer (handle
`1`) is still scheduled, because `showTab` clears only the handle last stored
in `refreshInterval` (handle `2`); when the interval elapses `loadHoldings`
runs once more.  The same happens without an active tab at load when the
holdings tab is activated twice. -/
theorem timer_survives_switching_away :
    (runTabs true ["holdings", "watchlist"]).timers = [1] ∧
      (runTabs true ["holdings", "watchlist"]).refreshInterval = some 2 ∧
      (elapseInterval (runTabs true ["holdings", "watchlist"])).loads =
        (runTabs true ["holdings", "watchlist"]).loads + 1 ∧
      (runTabs false ["holdings", "holdings", "settings"]).timers = [1] := by
  decide

/-- C9: after a page load with the holdings tab active followed by
`showTab('holdings')`, two interval timers (handles `2` and `1`) are scheduled
while `refreshInterval` holds only handle `2`: the state is neither "no timer"
nor "exactly the one timer held in `refreshInterval`". -/
theorem reactivation_leaves_two_timers :
    (runTabs true ["holdings"]).timers = [2, 1] ∧
      (runTabs true ["holdings"]).refreshInterval = some 2 ∧
      ¬ ((runTabs true ["holdings"]).timers = [] ∨
          ∃ handle, (runTabs true ["holdings"]).timers = [handle] ∧
            (runTabs true ["holdings"]).refreshInterval = some handle) := by
  refine ⟨by decide, by decide, ?_⟩
  have ht : (runTabs true ["holdings"]).timers = [2, 1] := by decide
  rw [ht]
  simp

end TradingBot
